import Mathlib

/-!
Verification of the `crypto` package of OpenSlides/vote-decrypt
(`src/crypto/crypto.go`) against its natural-language specification.

Byte strings are embedded as `List Nat` (each entry one byte, `< 256` for
well-formed data).  The package's own code (`New`, `PublicMainKey`,
`CreatePollKey`, `PublicPollKey`, `Decrypt`, `Sign`, `Encrypt`, `Verify`) is
translated statement by statement.  The external library primitives it calls
(`crypto/ecdh` X25519, `crypto/ed25519`, `golang.org/x/crypto/hkdf`,
`crypto/aes` + `crypto/cipher` GCM, `io.ReadFull`) are not part of this
repository; they are modelled as concrete executable functions that keep the
library's interface behaviour exactly (length checks, error cases, clamping,
output sizes, the all-zero shared-secret check, Diffie-Hellman commutativity,
AEAD seal/open inversion) while replacing the irreducible cryptographic cores
(the Montgomery ladder, SHA-2, AES) by concrete algebraic stand-ins.
-/

namespace VoteDecrypt

/-! ### Byte-string utilities -/

/-- Little-endian encoding of a natural number into exactly `w` bytes
(truncating above `2 ^ (8 * w)`), as the Go curve/ed25519 byte encodings do. -/
def natToBytesLE : Nat → Nat → List Nat
  | 0, _ => []
  | w + 1, n => n % 256 :: natToBytesLE w (n / 256)

/-- Little-endian decoding of a byte string into a natural number. -/
def bytesToNatLE : List Nat → Nat
  | [] => 0
  | b :: bs => b + 256 * bytesToNatLE bs

/-- Fuelled binary modular exponentiation; the fuel bounds the bit length of
the exponent.  Structural recursion keeps it kernel-computable on the
255-to-510-bit exponents that X25519 scalar multiplication uses. -/
def powModAux : Nat → Nat → Nat → Nat → Nat
  | 0, _, _, m => 1 % m
  | fuel + 1, b, e, m =>
    if e = 0 then 1 % m
    else if e % 2 = 1 then powModAux fuel (b * b % m) (e / 2) m * (b % m) % m
    else powModAux fuel (b * b % m) (e / 2) m

/-- Modular exponentiation for exponents below `2 ^ 512`. -/
def powMod (b e m : Nat) : Nat := powModAux 512 b e m

/-! ### Errors

Go reports failures through wrapped `error` values (`fmt.Errorf` with `%w`)
and, for `ed25519.NewKeyFromSeed`, through a panic.  Each constructor below
stands for one error message of `crypto.go` or of a library function it
calls; wrapping constructors carry the wrapped inner error. -/

/-- Error values of the crypto package and of the library functions it calls.
`invalidCipher` is the message `invalid cipher` of `Decrypt`; the wrapping
constructors mirror the `fmt.Errorf` wrappers of `crypto.go`;
`badSeedLength` models the `ed25519: bad seed length` panic; `eof` and
`unexpectedEOF` model `io.EOF` and `io.ErrUnexpectedEOF`. -/
inductive CErr where
  | invalidCipher
  | invalidPrivateKeySize
  | invalidPublicKeySize
  | lowOrderPoint
  | messageAuthFailed
  | invalidKeySize (n : Nat)
  | entropyLimitReached
  | eof
  | unexpectedEOF
  | badSeedLength (n : Nat)
  | invalidPublicKeyInCiphertext (e : CErr)
  | initializingPrivateKey (e : CErr)
  | creatingSharedSecred (e : CErr)
  | generateKeyWithHkdf (e : CErr)
  | creatingAesCipher (e : CErr)
  | createGcmMode (e : CErr)
  | decryptingCiphertext (e : CErr)
  | readFromRandomSource (e : CErr)
  | parsingPrivatePollKey (e : CErr)
  | creatingEphemeralPrivateKey (e : CErr)
  | parsingPublicKey (e : CErr)
  | readRandomForNonce (e : CErr)
  deriving DecidableEq

/-! ### Model of `io.ReadFull` on an injected byte-list random source

The random source (`io.Reader`) is embedded as the list of bytes it will
yield, as `crypto.New`'s injected-dependency contract intends. -/

/-- Model of `io.ReadFull(src, buf)` for an `n`-byte buffer: returns the
first `n` bytes, `io.EOF` if the source is empty, `io.ErrUnexpectedEOF` if
it holds fewer than `n` bytes. -/
def readFull (src : List Nat) (n : Nat) : Except CErr (List Nat) :=
  if n ≤ src.length then .ok (src.take n)
  else if src.length = 0 then .error .eof
  else .error .unexpectedEOF

/-! ### Model of `crypto/ecdh` X25519

Go's `ecdh.X25519()` accepts every 32-byte string as a private key and as a
public key (only the lengths are checked), clamps the scalar per RFC 7748,
and reports an error from `ECDH` exactly when the computed shared secret is
all zero.  The scalar-multiplication core (the Montgomery ladder on
Curve25519) is not repository code; it is modelled algebraically: group
elements are residues encoded as 32 little-endian bytes, the base point is
`9` (the real X25519 base point's u-coordinate), and scalar multiplication
is exponentiation modulo `2 ^ 255 - 19` (the real Curve25519 field prime),
which keeps the commutativity `(g^a)^b = (g^b)^a` the Diffie-Hellman
exchange relies on, the fixed 32-byte encoding, and the all-zero check. -/

/-- The Curve25519 field prime `2 ^ 255 - 19`. -/
def x25519P : Nat := 2 ^ 255 - 19

/-- RFC 7748 scalar clamping: clear the three lowest bits, clear bit 255,
set bit 254. -/
def clampScalar (k : Nat) : Nat := 2 ^ 254 + 8 * (k / 8 % 2 ^ 251)

/-- Scalar multiplication of the point encoded by `u` by the clamped scalar
encoded by `scalar`, as 32 output bytes (model of the X25519 function). -/
def x25519 (scalar u : List Nat) : List Nat :=
  natToBytesLE 32 (powMod (bytesToNatLE u) (clampScalar (bytesToNatLE scalar)) x25519P)

/-- The X25519 base point (u-coordinate `9`), 32-byte encoded. -/
def x25519BasePoint : List Nat := natToBytesLE 32 9

/-- Model of `ecdh.PrivateKey.PublicKey().Bytes()`: scalar multiplication of
the base point. -/
def scalarBaseMult (scalar : List Nat) : List Nat := x25519 scalar x25519BasePoint

/-- Model of `curve.NewPrivateKey`: X25519 accepts exactly the 32-byte
strings. -/
def newPrivateKey (key : List Nat) : Except CErr (List Nat) :=
  if key.length = 32 then .ok key else .error .invalidPrivateKeySize

/-- Model of `curve.NewPublicKey`: X25519 accepts exactly the 32-byte
strings. -/
def newPublicKey (key : List Nat) : Except CErr (List Nat) :=
  if key.length = 32 then .ok key else .error .invalidPublicKeySize

/-- Model of `ecdh.PrivateKey.ECDH`: the shared secret, failing on an
all-zero result (low-order peer point). -/
def ecdhShared (priv pub : List Nat) : Except CErr (List Nat) :=
  if x25519 priv pub = List.replicate 32 0 then .error .lowOrderPoint
  else .ok (x25519 priv pub)

/-! ### Model of `crypto/ed25519`

What the claims need from Ed25519 is: key derivation is a deterministic
function of the 32-byte seed (`NewKeyFromSeed` panics on any other length,
and stores the private key as seed ++ public key); `Sign` is a deterministic
64-byte signature computed from the private key and the message; `Verify`
accepts exactly the signature `Sign` produces for that public key and
message.  The signature is modelled as an ideal deterministic tag computed
from the public key and the message, injective in 32-byte messages
(correctness plus unforgeability across messages, the contract the spec's
signature-integrity property states). -/

/-- Model of the public-key half derived by `ed25519.NewKeyFromSeed` (a
deterministic 32-byte function of the seed; the SHA-512/scalar-mult core is
library code, replaced by a modular-exponentiation stand-in). -/
def edPubFromSeed (seed : List Nat) : List Nat :=
  natToBytesLE 32 (powMod 2 (bytesToNatLE seed) x25519P)

/-- Model of `ed25519.NewKeyFromSeed`: panics (modelled as an error) unless
the seed is exactly 32 bytes; the 64-byte private key is seed ++ public. -/
def edNewKeyFromSeed (seed : List Nat) : Except CErr (List Nat) :=
  if seed.length = 32 then .ok (seed ++ edPubFromSeed seed)
  else .error (.badSeedLength seed.length)

/-- The ideal 64-byte deterministic signature tag over a public key and a
message. -/
def edSigTag (pub message : List Nat) : List Nat :=
  natToBytesLE 64 (bytesToNatLE pub + 2 ^ 256 * bytesToNatLE message)

/-- Model of `ed25519.Sign`: the private key stores the public key in its
last 32 bytes. -/
def edSign (priv message : List Nat) : List Nat := edSigTag (priv.drop 32) message

/-- Model of `ed25519.Verify`: true exactly for the signature `Sign`
produces under the matching 32-byte public key. -/
def edVerify (pub message sig : List Nat) : Bool :=
  decide (pub.length = 32 ∧ sig = edSigTag pub message)

/-! ### Model of `hkdf.New(sha256.New, secret, salt, info)` and AES-GCM

HKDF-SHA256 is a deterministic expansion of (ikm, salt, info) with an output
limit of `255 * 32` bytes; the hash core is replaced by a concrete mixing
stand-in.  AES-GCM is modelled as a length-preserving keystream cipher with
a 16-byte tag over (key, nonce, ciphertext, additional data): `Seal` appends
the tag, `Open` recomputes and compares it and fails with
`cipher: message authentication failed` otherwise, exactly the library's
interface behaviour. -/

/-- Deterministic HKDF-SHA256 output stream (first `n` bytes). -/
def hkdfSha256 (ikm salt info : List Nat) (n : Nat) : List Nat :=
  (List.range n).map fun i =>
    (bytesToNatLE ikm * 3 + bytesToNatLE salt * 5 + bytesToNatLE info * 7 + 11 * i + 13) % 256

/-- Model of `io.ReadFull` on the HKDF reader: fails only past the
`255 * hashLen` entropy limit. -/
def hkdfRead (ikm salt info : List Nat) (n : Nat) : Except CErr (List Nat) :=
  if n ≤ 255 * 32 then .ok (hkdfSha256 ikm salt info n) else .error .entropyLimitReached

/-- Model of `aes.NewCipher`: accepts exactly 16-, 24- and 32-byte keys. -/
def aesNewCipher (key : List Nat) : Except CErr (List Nat) :=
  if key.length = 16 ∨ key.length = 24 ∨ key.length = 32 then .ok key
  else .error (.invalidKeySize key.length)

/-- Model of `cipher.NewGCM`: never fails on an AES block (block size 16). -/
def newGCM (block : List Nat) : Except CErr (List Nat) := .ok block

/-- The GCM keystream for a key and nonce (first `n` bytes); a concrete
pseudorandom stand-in for the AES-CTR stream. -/
def gcmKeystream (key nonce : List Nat) (n : Nat) : List Nat :=
  (List.range n).map fun i =>
    (bytesToNatLE key * 17 + bytesToNatLE nonce * 19 + 23 * i + 29) % 256

/-- The 16-byte GCM authentication tag over key, nonce, ciphertext and
additional data; a concrete stand-in for GHASH. -/
def gcmTag (key nonce ct aad : List Nat) : List Nat :=
  natToBytesLE 16
    (bytesToNatLE key * 31 + bytesToNatLE nonce * 37 + bytesToNatLE ct * 41 +
      bytesToNatLE aad * 43 + ct.length)

/-- Model of `gcm.Seal(nil, nonce, plaintext, aad)`: keystream-encrypted
plaintext followed by the 16-byte tag. -/
def gcmSeal (key nonce plaintext aad : List Nat) : List Nat :=
  List.zipWith (fun a b => a ^^^ b) plaintext (gcmKeystream key nonce plaintext.length) ++
    gcmTag key nonce
      (List.zipWith (fun a b => a ^^^ b) plaintext (gcmKeystream key nonce plaintext.length)) aad

/-- Model of `gcm.Open(nil, nonce, data, aad)`: splits off the 16-byte tag,
verifies it, and decrypts; fails with the authentication error otherwise. -/
def gcmOpen (key nonce data aad : List Nat) : Except CErr (List Nat) :=
  if data.length < 16 then .error .messageAuthFailed
  else
    if data.drop (data.length - 16) = gcmTag key nonce (data.take (data.length - 16)) aad then
      .ok (List.zipWith (fun a b => a ^^^ b) (data.take (data.length - 16))
        (gcmKeystream key nonce (data.take (data.length - 16)).length))
    else .error .messageAuthFailed

/-! ### The crypto package (`src/crypto/crypto.go`) -/

/-- `pubKeySize` of `crypto.go`. -/
def pubKeySize : Nat := 32

/-- `nonceSize` of `crypto.go`. -/
def nonceSize : Nat := 12

/-- `aes.BlockSize`. -/
def aesBlockSize : Nat := 16

/-- The `Crypto` struct: the ed25519 main key (64 bytes: seed ++ public) and
the injected random source, embedded as the byte list it yields. -/
structure Crypto where
  mainKey : List Nat
  random : List Nat
  deriving DecidableEq

/-- `crypto.New`: builds the main key with `ed25519.NewKeyFromSeed(mainKey)`
(whose bad-seed-length panic is modelled as the error outcome) and stores
the random source. -/
def New (mainKey random : List Nat) : Except CErr Crypto :=
  match edNewKeyFromSeed mainKey with
  | .error e => .error e
  | .ok key => .ok ⟨key, random⟩

/-- `Crypto.PublicMainKey`: the public half of the ed25519 private key (its
last 32 bytes). -/
def Crypto.PublicMainKey (c : Crypto) : List Nat := c.mainKey.drop 32

/-- `Crypto.CreatePollKey`: the first 32 bytes of the random source,
wrapping a short read as `read from random source: ...`. -/
def Crypto.CreatePollKey (c : Crypto) : Except CErr (List Nat) :=
  match readFull c.random 32 with
  | .error e => .error (.readFromRandomSource e)
  | .ok key => .ok key

/-- `Crypto.PublicPollKey`: parses the private poll key, derives its X25519
public point and signs the point with the main key. -/
def Crypto.PublicPollKey (c : Crypto) (privateKey : List Nat) :
    Except CErr (List Nat × List Nat) :=
  match newPrivateKey privateKey with
  | .error e => .error (.parsingPrivatePollKey e)
  | .ok privKey => .ok (scalarBaseMult privKey, edSign c.mainKey (scalarBaseMult privKey))

/-- `Crypto.Sign`: ed25519 signature with the main key. -/
def Crypto.Sign (c : Crypto) (value : List Nat) : List Nat := edSign c.mainKey value

/-- `Crypto.Decrypt`: length check, parse the embedded ephemeral public key
(first 32 bytes) and nonce (next 12 bytes), X25519 shared secret,
HKDF-SHA256 key with nil salt and nil info, AES-GCM open of the remaining
bytes with nil additional data.  The receiver is unused, as in the
source. -/
def Crypto.Decrypt (_c : Crypto) (privateKey ciphertext : List Nat) :
    Except CErr (List Nat) :=
  if ciphertext.length < pubKeySize + nonceSize + aesBlockSize then .error .invalidCipher
  else
    match newPublicKey (ciphertext.take pubKeySize) with
    | .error e => .error (.invalidPublicKeyInCiphertext e)
    | .ok ephemeralPublicKey =>
      match newPrivateKey privateKey with
      | .error e => .error (.initializingPrivateKey e)
      | .ok privKey =>
        match ecdhShared privKey ephemeralPublicKey with
        | .error e => .error (.creatingSharedSecred e)
        | .ok sharedSecred =>
          match hkdfRead sharedSecred [] [] 32 with
          | .error e => .error (.generateKeyWithHkdf e)
          | .ok key =>
            match aesNewCipher key with
            | .error e => .error (.creatingAesCipher e)
            | .ok block =>
              match newGCM block with
              | .error e => .error (.createGcmMode e)
              | .ok mode =>
                match gcmOpen mode ((ciphertext.drop pubKeySize).take nonceSize)
                    (ciphertext.drop (pubKeySize + nonceSize)) [] with
                | .error e => .error (.decryptingCiphertext e)
                | .ok plaintext => .ok plaintext

/-- `crypto.Encrypt`: generate an ephemeral key from the random source
(`curve.GenerateKey` reads 32 bytes with `io.ReadFull`), derive the shared
secret with the poll public key, HKDF key, read the nonce with a plain
`random.Read` into a zeroed 12-byte buffer (EOF only when the source is
empty; a short read leaves trailing zero bytes), seal with AES-GCM, and
return ephemeral public key ++ nonce ++ sealed payload. -/
def Encrypt (random publicPollKey plaintext : List Nat) : Except CErr (List Nat) :=
  match readFull random 32 with
  | .error e => .error (.creatingEphemeralPrivateKey e)
  | .ok ephemeralPrivateKey =>
    match newPublicKey publicPollKey with
    | .error e => .error (.parsingPublicKey e)
    | .ok remotePublicKey =>
      match ecdhShared ephemeralPrivateKey remotePublicKey with
      | .error e => .error (.creatingSharedSecred e)
      | .ok sharedSecred =>
        match hkdfRead sharedSecred [] [] 32 with
        | .error e => .error (.generateKeyWithHkdf e)
        | .ok key =>
          match aesNewCipher key with
          | .error e => .error (.creatingAesCipher e)
          | .ok block =>
            if (random.drop 32).length = 0 then .error (.readRandomForNonce .eof)
            else
              match newGCM block with
              | .error e => .error (.createGcmMode e)
              | .ok mode =>
                .ok (scalarBaseMult ephemeralPrivateKey ++
                  ((random.drop 32).take nonceSize ++
                    List.replicate (nonceSize - (random.drop 32).length) 0) ++
                  gcmSeal mode
                    ((random.drop 32).take nonceSize ++
                      List.replicate (nonceSize - (random.drop 32).length) 0)
                    plaintext [])

/-- `crypto.Verify`: ed25519 verification. -/
def Verify (pubKey message signature : List Nat) : Bool := edVerify pubKey message signature

end VoteDecrypt

deriving instance DecidableEq for Except

set_option maxRecDepth 100000

namespace VoteDecrypt

/-! ### Byte-string lemmas -/

theorem two_pow_eight_mul_succ (w : Nat) : (2 : Nat) ^ (8 * (w + 1)) = 256 * 2 ^ (8 * w) := by
  have h : 8 * (w + 1) = 8 * w + 8 := by ring
  rw [h, pow_add]
  norm_num [Nat.mul_comm]

theorem length_natToBytesLE (w : Nat) : ∀ n, (natToBytesLE w n).length = w := by
  induction w with
  | zero => intro n; rfl
  | succ w ih => intro n; simp [natToBytesLE, ih]

theorem bytesToNatLE_natToBytesLE (w : Nat) :
    ∀ n, bytesToNatLE (natToBytesLE w n) = n % 2 ^ (8 * w) := by
  induction w with
  | zero => intro n; simp [natToBytesLE, bytesToNatLE, Nat.mod_one]
  | succ w ih =>
    intro n
    simp only [natToBytesLE, bytesToNatLE, ih]
    rw [two_pow_eight_mul_succ, Nat.mod_mul]

theorem mem_natToBytesLE_lt (w : Nat) : ∀ n, ∀ b ∈ natToBytesLE w n, b < 256 := by
  induction w with
  | zero => intro n b hb; simp [natToBytesLE] at hb
  | succ w ih =>
    intro n b hb
    simp only [natToBytesLE, List.mem_cons] at hb
    rcases hb with hb | hb
    · omega
    · exact ih _ b hb

theorem bytesToNatLE_lt : ∀ l : List Nat, (∀ b ∈ l, b < 256) →
    bytesToNatLE l < 2 ^ (8 * l.length) := by
  intro l
  induction l with
  | nil => intro _; simp [bytesToNatLE]
  | cons a as ih =>
    intro h
    have ha : a < 256 := h a (List.mem_cons_self a as)
    have has : bytesToNatLE as < 2 ^ (8 * as.length) :=
      ih fun b hb => h b (List.mem_cons_of_mem a hb)
    simp only [bytesToNatLE, List.length_cons]
    rw [two_pow_eight_mul_succ]
    omega

theorem bytesToNatLE_inj : ∀ l1 l2 : List Nat, l1.length = l2.length →
    (∀ b ∈ l1, b < 256) → (∀ b ∈ l2, b < 256) →
    bytesToNatLE l1 = bytesToNatLE l2 → l1 = l2 := by
  intro l1
  induction l1 with
  | nil => intro l2 hlen _ _ _; cases l2 <;> simp_all
  | cons a as ih =>
    intro l2 hlen h1 h2 hv
    cases l2 with
    | nil => simp at hlen
    | cons b bs =>
      have ha : a < 256 := h1 a (List.mem_cons_self a as)
      have hb : b < 256 := h2 b (List.mem_cons_self b bs)
      simp only [bytesToNatLE] at hv
      have hab : a = b ∧ bytesToNatLE as = bytesToNatLE bs := by omega
      have htail : as = bs := by
        refine ih bs ?_ (fun x hx => h1 x (List.mem_cons_of_mem a hx))
          (fun x hx => h2 x (List.mem_cons_of_mem b hx)) hab.2
        simpa using hlen
      rw [hab.1, htail]

theorem natToBytesLE_zero (w : Nat) : natToBytesLE w 0 = List.replicate w 0 := by
  induction w with
  | zero => rfl
  | succ w ih => simp [natToBytesLE, List.replicate, ih]

theorem bytesToNatLE_replicate_zero (w : Nat) : bytesToNatLE (List.replicate w 0) = 0 := by
  induction w with
  | zero => rfl
  | succ w ih => simp [List.replicate, bytesToNatLE, ih]

theorem natToBytesLE_eq_replicate_iff {w n : Nat} (h : n < 2 ^ (8 * w)) :
    natToBytesLE w n = List.replicate w 0 ↔ n = 0 := by
  constructor
  · intro he
    have hv := congrArg bytesToNatLE he
    rw [bytesToNatLE_natToBytesLE, bytesToNatLE_replicate_zero, Nat.mod_eq_of_lt h] at hv
    exact hv
  · intro he; rw [he]; exact natToBytesLE_zero w

theorem powModAux_eq (fuel : Nat) : ∀ b e m : Nat, e < 2 ^ fuel →
    powModAux fuel b e m = b ^ e % m := by
  induction fuel with
  | zero =>
    intro b e m he
    have he0 : e = 0 := by simpa using Nat.lt_one_iff.mp (by simpa using he)
    simp [powModAux, he0]
  | succ f ih =>
    intro b e m he
    by_cases h0 : e = 0
    · simp [powModAux, h0]
    · have hdiv : e / 2 < 2 ^ f := by
        have h2 : (2 : Nat) ^ (f + 1) = 2 * 2 ^ f := by rw [pow_succ]; ring
        omega
      have hr := ih (b * b % m) (e / 2) m hdiv
      have hbb : (b * b % m) ^ (e / 2) % m = (b * b) ^ (e / 2) % m := (Nat.pow_mod _ _ _).symm
      have hunfold : powModAux (f + 1) b e m =
          if e = 0 then 1 % m
          else if e % 2 = 1 then powModAux f (b * b % m) (e / 2) m * (b % m) % m
          else powModAux f (b * b % m) (e / 2) m := rfl
      by_cases hodd : e % 2 = 1
      · have heq : e = 2 * (e / 2) + 1 := by omega
        rw [hunfold, if_neg h0, if_pos hodd, hr, hbb, ← Nat.mul_mod, ← pow_two, ← pow_mul,
          ← pow_succ, ← heq]
      · have heq : e = 2 * (e / 2) := by omega
        rw [hunfold, if_neg h0, if_neg hodd, hr, hbb, ← pow_two, ← pow_mul, ← heq]

theorem powMod_eq {b e m : Nat} (he : e < 2 ^ 512) : powMod b e m = b ^ e % m :=
  powModAux_eq 512 b e m he

/-! ### Lemmas about the library models -/

theorem length_x25519 (s u : List Nat) : (x25519 s u).length = 32 :=
  length_natToBytesLE _ _

theorem length_scalarBaseMult (s : List Nat) : (scalarBaseMult s).length = 32 :=
  length_natToBytesLE _ _

theorem length_hkdfSha256 (ikm salt info : List Nat) (n : Nat) :
    (hkdfSha256 ikm salt info n).length = n := by
  simp [hkdfSha256]

theorem length_gcmKeystream (key nonce : List Nat) (n : Nat) :
    (gcmKeystream key nonce n).length = n := by
  simp [gcmKeystream]

theorem length_gcmTag (key nonce ct aad : List Nat) : (gcmTag key nonce ct aad).length = 16 :=
  length_natToBytesLE _ _

theorem length_gcmSeal (key nonce pt aad : List Nat) :
    (gcmSeal key nonce pt aad).length = pt.length + 16 := by
  simp [gcmSeal, length_gcmTag, length_gcmKeystream]

theorem length_edPubFromSeed (seed : List Nat) : (edPubFromSeed seed).length = 32 :=
  length_natToBytesLE _ _

theorem mem_scalarBaseMult_lt {s : List Nat} : ∀ b ∈ scalarBaseMult s, b < 256 :=
  fun b hb => mem_natToBytesLE_lt _ _ b hb

theorem mem_edPubFromSeed_lt {s : List Nat} : ∀ b ∈ edPubFromSeed s, b < 256 :=
  fun b hb => mem_natToBytesLE_lt _ _ b hb

theorem zipWith_xor_cancel : ∀ l ks : List Nat, l.length = ks.length →
    List.zipWith (fun a b => a ^^^ b) (List.zipWith (fun a b => a ^^^ b) l ks) ks = l := by
  intro l
  induction l with
  | nil => intro ks _; simp
  | cons a as ih =>
    intro ks hlen
    cases ks with
    | nil => simp at hlen
    | cons k kss =>
      simp only [List.zipWith_cons_cons, List.cons.injEq]
      exact ⟨Nat.xor_cancel_right k a, ih kss (by simpa using hlen)⟩

/-- A sealed AEAD payload opens back to the plaintext under the same key,
nonce and additional data. -/
theorem gcmOpen_gcmSeal (key nonce pt aad : List Nat) :
    gcmOpen key nonce (gcmSeal key nonce pt aad) aad = .ok pt := by
  have hks : (gcmKeystream key nonce pt.length).length = pt.length :=
    length_gcmKeystream key nonce pt.length
  set ct := List.zipWith (fun a b => a ^^^ b) pt (gcmKeystream key nonce pt.length) with hctdef
  have hct : ct.length = pt.length := by
    rw [hctdef, List.length_zipWith, hks, Nat.min_self]
  have htag : (gcmTag key nonce ct aad).length = 16 := length_gcmTag key nonce ct aad
  have hseal : gcmSeal key nonce pt aad = ct ++ gcmTag key nonce ct aad := rfl
  have hlen : (ct ++ gcmTag key nonce ct aad).length = ct.length + 16 := by
    rw [List.length_append, htag]
  rw [hseal]
  unfold gcmOpen
  rw [hlen]
  have h16 : ct.length + 16 - 16 = ct.length := by omega
  rw [h16, List.take_left, List.drop_left, if_neg (by omega), if_pos rfl, hct]
  exact congrArg Except.ok (zipWith_xor_cancel pt _ hks.symm)

theorem x25519P_pos : 0 < x25519P := by decide

theorem x25519P_lt : x25519P < 2 ^ (8 * 32) := by decide

theorem clampScalar_lt (k : Nat) : clampScalar k < 2 ^ 255 := by
  have h : k / 8 % 2 ^ 251 < 2 ^ 251 := Nat.mod_lt _ (Nat.two_pow_pos 251)
  have h2 : (2 : Nat) ^ 255 = 2 ^ 254 + 8 * 2 ^ 251 := by norm_num
  unfold clampScalar
  rw [h2]
  omega

theorem clampScalar_lt512 (k : Nat) : clampScalar k < 2 ^ 512 :=
  lt_trans (clampScalar_lt k) (by norm_num)

/-- Scalar multiplication of a derived public point, computed numerically:
the model satisfies the Diffie-Hellman equation. -/
theorem x25519_scalarBaseMult (a b : List Nat) :
    x25519 a (scalarBaseMult b) =
      natToBytesLE 32
        (9 ^ (clampScalar (bytesToNatLE b) * clampScalar (bytesToNatLE a)) % x25519P) := by
  have hbase : bytesToNatLE x25519BasePoint = 9 := by decide
  have hcb := clampScalar_lt512 (bytesToNatLE b)
  have hca := clampScalar_lt512 (bytesToNatLE a)
  have hin : powMod 9 (clampScalar (bytesToNatLE b)) x25519P =
      9 ^ clampScalar (bytesToNatLE b) % x25519P := powMod_eq hcb
  have hround : bytesToNatLE (natToBytesLE 32 (9 ^ clampScalar (bytesToNatLE b) % x25519P)) =
      9 ^ clampScalar (bytesToNatLE b) % x25519P := by
    rw [bytesToNatLE_natToBytesLE]
    exact Nat.mod_eq_of_lt (lt_trans (Nat.mod_lt _ x25519P_pos) x25519P_lt)
  unfold scalarBaseMult x25519
  rw [hbase, hin, hround, powMod_eq hca, ← Nat.pow_mod, ← pow_mul]

/-- The two sides of the ECDH exchange compute the same shared secret. -/
theorem x25519_comm (a b : List Nat) :
    x25519 a (scalarBaseMult b) = x25519 b (scalarBaseMult a) := by
  rw [x25519_scalarBaseMult, x25519_scalarBaseMult, Nat.mul_comm]

theorem nine_pow_mod_ne_zero (e : Nat) : 9 ^ e % x25519P ≠ 0 := by
  intro h
  have hdvd : x25519P ∣ 9 ^ e := Nat.dvd_of_mod_eq_zero h
  have h9 : (9 : Nat) ^ e = 3 ^ (2 * e) := by rw [pow_mul]; norm_num
  rw [h9] at hdvd
  obtain ⟨k, _, hpk⟩ := (Nat.dvd_prime_pow (by norm_num : Nat.Prime 3)).mp hdvd
  cases k with
  | zero => exact absurd hpk (by decide)
  | succ j =>
    have h3 : (3 : Nat) ∣ x25519P := hpk ▸ dvd_pow_self 3 (Nat.succ_ne_zero j)
    have hm : x25519P % 3 = 0 := Nat.dvd_iff_mod_eq_zero.mp h3
    have : x25519P % 3 = 1 := by decide
    omega

/-- The shared secret of an honestly derived public point is never the
all-zero string, so the ECDH calls in `Encrypt` and `Decrypt` succeed. -/
theorem x25519_scalarBaseMult_ne_zero (a b : List Nat) :
    x25519 a (scalarBaseMult b) ≠ List.replicate 32 0 := by
  rw [x25519_scalarBaseMult]
  intro h
  have hbound : 9 ^ (clampScalar (bytesToNatLE b) * clampScalar (bytesToNatLE a)) % x25519P <
      2 ^ (8 * 32) := lt_trans (Nat.mod_lt _ x25519P_pos) x25519P_lt
  exact nine_pow_mod_ne_zero _ ((natToBytesLE_eq_replicate_iff hbound).mp h)

theorem ecdhShared_scalarBaseMult (a b : List Nat) :
    ecdhShared a (scalarBaseMult b) = .ok (x25519 a (scalarBaseMult b)) := by
  unfold ecdhShared
  rw [if_neg (x25519_scalarBaseMult_ne_zero a b)]

/-! ### Lemmas about the crypto package -/

theorem New_ok {seed rnd : List Nat} (h : seed.length = 32) :
    New seed rnd = .ok ⟨seed ++ edPubFromSeed seed, rnd⟩ := by
  unfold New edNewKeyFromSeed
  rw [if_pos h]

theorem New_err {seed rnd : List Nat} (h : seed.length ≠ 32) :
    New seed rnd = .error (.badSeedLength seed.length) := by
  unfold New edNewKeyFromSeed
  rw [if_neg h]

theorem New_ok_inv {seed rnd : List Nat} {c : Crypto} (h : New seed rnd = .ok c) :
    seed.length = 32 ∧ c = ⟨seed ++ edPubFromSeed seed, rnd⟩ := by
  by_cases hs : seed.length = 32
  · rw [New_ok hs] at h
    exact ⟨hs, (Except.ok.inj h).symm⟩
  · rw [New_err hs] at h
    exact absurd h (by simp)

theorem publicMainKey_mk {seed : List Nat} (rnd : List Nat) (h : seed.length = 32) :
    (Crypto.mk (seed ++ edPubFromSeed seed) rnd).PublicMainKey = edPubFromSeed seed := by
  unfold Crypto.PublicMainKey
  rw [← h]
  exact List.drop_left seed _

theorem edSign_mk {seed : List Nat} (h : seed.length = 32) (m : List Nat) :
    edSign (seed ++ edPubFromSeed seed) m = edSigTag (edPubFromSeed seed) m := by
  unfold edSign
  rw [← h, List.drop_left]

theorem publicPollKey_ok (c : Crypto) {pk : List Nat} (h : pk.length = 32) :
    c.PublicPollKey pk = .ok (scalarBaseMult pk, edSign c.mainKey (scalarBaseMult pk)) := by
  unfold Crypto.PublicPollKey newPrivateKey
  rw [if_pos h]

theorem publicPollKey_err (c : Crypto) {pk : List Nat} (h : pk.length ≠ 32) :
    c.PublicPollKey pk = .error (.parsingPrivatePollKey .invalidPrivateKeySize) := by
  unfold Crypto.PublicPollKey newPrivateKey
  rw [if_neg h]

theorem bytesToNatLE_lt_of_len32 {l : List Nat} (hl : l.length = 32)
    (hb : ∀ b ∈ l, b < 256) : bytesToNatLE l < 2 ^ 256 := by
  have h := bytesToNatLE_lt l hb
  rw [hl] at h
  exact h

/-- The ideal signature tag is injective in 32-byte messages for a fixed
32-byte public key. -/
theorem edSigTag_inj {pubk m1 m2 : List Nat} (hp : bytesToNatLE pubk < 2 ^ 256)
    (h1 : m1.length = 32) (hb1 : ∀ b ∈ m1, b < 256)
    (h2 : m2.length = 32) (hb2 : ∀ b ∈ m2, b < 256)
    (h : edSigTag pubk m1 = edSigTag pubk m2) : m1 = m2 := by
  have hv1 : bytesToNatLE m1 < 2 ^ 256 := bytesToNatLE_lt_of_len32 h1 hb1
  have hv2 : bytesToNatLE m2 < 2 ^ 256 := bytesToNatLE_lt_of_len32 h2 hb2
  unfold edSigTag at h
  have hv := congrArg bytesToNatLE h
  rw [bytesToNatLE_natToBytesLE, bytesToNatLE_natToBytesLE] at hv
  have hBB : (2 : Nat) ^ (8 * 64) = 2 ^ 256 * 2 ^ 256 := by
    rw [← pow_add]
  have hlt1 : bytesToNatLE pubk + 2 ^ 256 * bytesToNatLE m1 < 2 ^ (8 * 64) := by
    rw [hBB]
    calc bytesToNatLE pubk + 2 ^ 256 * bytesToNatLE m1
        < 2 ^ 256 + 2 ^ 256 * bytesToNatLE m1 := Nat.add_lt_add_right hp _
      _ = 2 ^ 256 * (bytesToNatLE m1 + 1) := by ring
      _ ≤ 2 ^ 256 * 2 ^ 256 := Nat.mul_le_mul_left _ (by omega)
  have hlt2 : bytesToNatLE pubk + 2 ^ 256 * bytesToNatLE m2 < 2 ^ (8 * 64) := by
    rw [hBB]
    calc bytesToNatLE pubk + 2 ^ 256 * bytesToNatLE m2
        < 2 ^ 256 + 2 ^ 256 * bytesToNatLE m2 := Nat.add_lt_add_right hp _
      _ = 2 ^ 256 * (bytesToNatLE m2 + 1) := by ring
      _ ≤ 2 ^ 256 * 2 ^ 256 := Nat.mul_le_mul_left _ (by omega)
  rw [Nat.mod_eq_of_lt hlt1, Nat.mod_eq_of_lt hlt2] at hv
  have hm : bytesToNatLE m1 = bytesToNatLE m2 :=
    Nat.eq_of_mul_eq_mul_left (Nat.two_pow_pos 256) (Nat.add_left_cancel hv)
  exact bytesToNatLE_inj m1 m2 (h1.trans h2.symm) hb1 hb2 hm

/-- `Decrypt` on a well-formed call reduces to the AEAD open of the payload
past byte 44, keyed by the HKDF expansion of the shared secret with nil salt
and nil info, under the nonce at bytes 32..43 and nil additional data. -/
theorem decrypt_unfolded (c : Crypto) (priv ct : List Nat)
    (h60 : 60 ≤ ct.length) (hpriv : priv.length = 32)
    (hnz : x25519 priv (ct.take 32) ≠ List.replicate 32 0) :
    c.Decrypt priv ct =
      match gcmOpen (hkdfSha256 (x25519 priv (ct.take 32)) [] [] 32)
          ((ct.drop 32).take 12) (ct.drop 44) [] with
      | .error e => .error (.decryptingCiphertext e)
      | .ok plaintext => .ok plaintext := by
  have htake : (ct.take 32).length = 32 := by
    rw [List.length_take]
    omega
  have h1 : newPublicKey (ct.take 32) = .ok (ct.take 32) := by
    unfold newPublicKey
    rw [if_pos htake]
  have h2 : newPrivateKey priv = .ok priv := by
    unfold newPrivateKey
    rw [if_pos hpriv]
  have h3 : ecdhShared priv (ct.take 32) = .ok (x25519 priv (ct.take 32)) := by
    unfold ecdhShared
    rw [if_neg hnz]
  have h4 : hkdfRead (x25519 priv (ct.take 32)) [] [] 32 =
      .ok (hkdfSha256 (x25519 priv (ct.take 32)) [] [] 32) := rfl
  have h5 : aesNewCipher (hkdfSha256 (x25519 priv (ct.take 32)) [] [] 32) =
      .ok (hkdfSha256 (x25519 priv (ct.take 32)) [] [] 32) := by
    unfold aesNewCipher
    rw [if_pos (Or.inr (Or.inr (length_hkdfSha256 _ _ _ _)))]
  unfold Crypto.Decrypt
  rw [if_neg (by rw [show pubKeySize + nonceSize + aesBlockSize = 60 from rfl]; omega)]
  simp only [pubKeySize, nonceSize, h1, h2, h3, h4, h5, newGCM]

/-- `Decrypt` inverts a ciphertext assembled from a 32-byte block, a 12-byte
nonce and a payload the AEAD opens. -/
theorem decrypt_of_parts (c : Crypto) (priv A N S pt : List Nat)
    (hpriv : priv.length = 32) (hA : A.length = 32) (hN : N.length = 12)
    (hnz : x25519 priv A ≠ List.replicate 32 0)
    (hS : gcmOpen (hkdfSha256 (x25519 priv A) [] [] 32) N S [] = .ok pt) :
    c.Decrypt priv (A ++ N ++ S) = .ok pt := by
  have hS16 : ¬S.length < 16 := by
    intro hlt
    unfold gcmOpen at hS
    rw [if_pos hlt] at hS
    exact absurd hS (by simp)
  have hctlen : (A ++ N ++ S).length = 44 + S.length := by
    rw [List.length_append, List.length_append, hA, hN]
  have htake : (A ++ N ++ S).take 32 = A := by
    rw [List.append_assoc]
    exact List.take_left' hA
  have hdropA : (A ++ N ++ S).drop 32 = N ++ S := by
    rw [List.append_assoc]
    exact List.drop_left' hA
  have hdrop44 : (A ++ N ++ S).drop 44 = S := by
    have hstep : ((A ++ N ++ S).drop 32).drop 12 = S := by
      rw [hdropA]
      exact List.drop_left' hN
    rw [List.drop_drop] at hstep
    exact hstep
  have hnz2 : x25519 priv ((A ++ N ++ S).take 32) ≠ List.replicate 32 0 := by
    rw [htake]
    exact hnz
  rw [decrypt_unfolded c priv (A ++ N ++ S) (by omega) hpriv hnz2, htake, hdropA, hdrop44,
    List.take_left' hN, hS]

/-! ### The claims -/

/-- C3: `Decrypt` returns the `invalid cipher` error (the spec's
`CiphertextTooShort`), and hence no plaintext, exactly when the ciphertext
is shorter than 60 bytes (32-byte public key + 12-byte nonce + 16-byte AEAD
tag); for 60 bytes or more the length check passes. -/
theorem C3_decrypt_length_check (c : Crypto) (priv ct : List Nat) :
    c.Decrypt priv ct = .error .invalidCipher ↔ ct.length < 60 := by
  have hsum : pubKeySize + nonceSize + aesBlockSize = 60 := rfl
  constructor
  · intro h
    by_cases hl : ct.length < 60
    · exact hl
    · exfalso
      unfold Crypto.Decrypt at h
      rw [hsum, if_neg hl] at h
      repeat' split at h
      all_goals simp_all
  · intro hl
    unfold Crypto.Decrypt
    rw [hsum, if_pos hl]

/-- C3 witness: the empty ciphertext is rejected as too short. -/
theorem C3_decrypt_length_check_witness :
    (Crypto.mk [] []).Decrypt [] [] = .error .invalidCipher ∧ ([] : List Nat).length < 60 :=
  ⟨(C3_decrypt_length_check (Crypto.mk [] []) [] []).mpr (by decide), by decide⟩

/-- C4: `New` derives the signing keypair deterministically from the seed
alone (the same seed gives the same key for any random source), and a seed
that is not exactly 32 bytes produces the bad-seed-length failure (the
spec's `InvalidSeedLength`; a panic in the Go library, modelled as the error
outcome) instead of succeeding or failing any other way. -/
theorem C4_new_seed_validation (seed r1 r2 : List Nat) :
    (seed.length = 32 →
      New seed r1 = .ok ⟨seed ++ edPubFromSeed seed, r1⟩ ∧
      New seed r2 = .ok ⟨seed ++ edPubFromSeed seed, r2⟩) ∧
    (seed.length ≠ 32 → New seed r1 = .error (.badSeedLength seed.length)) :=
  ⟨fun h => ⟨New_ok h, New_ok h⟩, fun h => New_err h⟩

/-- C4 witness: a 32-byte seed succeeds deterministically, a 3-byte seed
fails with the bad-seed-length error. -/
theorem C4_new_seed_validation_witness :
    New (List.range 32) [0] = .ok ⟨List.range 32 ++ edPubFromSeed (List.range 32), [0]⟩ ∧
    New [1, 2, 3] [0] = .error (.badSeedLength 3) :=
  ⟨((C4_new_seed_validation (List.range 32) [0] [0]).1 (by decide)).1,
    (C4_new_seed_validation [1, 2, 3] [0] [0]).2 (by decide)⟩

/-- C5: `CreatePollKey` reads exactly 32 bytes from the injected random
source and returns them as the poll private key; a source with fewer than
32 bytes yields a wrapped read error (the spec's `RandomSourceExhausted`)
and no key. -/
theorem C5_createPollKey_reads32 (c : Crypto) :
    (32 ≤ c.random.length → c.CreatePollKey = .ok (c.random.take 32)) ∧
    (c.random.length < 32 → c.CreatePollKey = .error (.readFromRandomSource
      (if c.random.length = 0 then .eof else .unexpectedEOF))) := by
  constructor
  · intro h
    unfold Crypto.CreatePollKey readFull
    rw [if_pos h]
  · intro h
    unfold Crypto.CreatePollKey readFull
    rw [if_neg (by omega)]
    by_cases h0 : c.random.length = 0
    · rw [if_pos h0, if_pos h0]
    · rw [if_neg h0, if_neg h0]

/-- C5 witness: a 40-byte source yields its first 32 bytes; an 8-byte source
yields the wrapped unexpected-EOF error. -/
theorem C5_createPollKey_reads32_witness :
    (32 ≤ (List.range 40).length ∧
      (Crypto.mk [] (List.range 40)).CreatePollKey = .ok ((List.range 40).take 32)) ∧
    ((List.range 8).length < 32 ∧
      (Crypto.mk [] (List.range 8)).CreatePollKey =
        .error (.readFromRandomSource .unexpectedEOF)) :=
  ⟨⟨by decide, (C5_createPollKey_reads32 (Crypto.mk [] (List.range 40))).1 (by decide)⟩,
    ⟨by decide, (C5_createPollKey_reads32 (Crypto.mk [] (List.range 8))).2 (by decide)⟩⟩

/-- C6: building `Crypto` with `New` from the same 32-byte seed, under any
two random sources, gives byte-for-byte the same `PublicMainKey`, namely the
public key derived from the seed alone. -/
theorem C6_publicMainKey_deterministic (seed r1 r2 : List Nat) (c1 c2 : Crypto)
    (h1 : New seed r1 = .ok c1) (h2 : New seed r2 = .ok c2) :
    c1.PublicMainKey = c2.PublicMainKey ∧ c1.PublicMainKey = edPubFromSeed seed := by
  obtain ⟨hs, hc1⟩ := New_ok_inv h1
  obtain ⟨_, hc2⟩ := New_ok_inv h2
  subst hc1
  subst hc2
  rw [publicMainKey_mk r1 hs, publicMainKey_mk r2 hs]
  exact ⟨rfl, rfl⟩

/-- C6 witness: the all-index seed under two different random sources. -/
theorem C6_publicMainKey_deterministic_witness :
    (Crypto.mk (List.range 32 ++ edPubFromSeed (List.range 32)) [1]).PublicMainKey =
      (Crypto.mk (List.range 32 ++ edPubFromSeed (List.range 32)) [2]).PublicMainKey ∧
    (Crypto.mk (List.range 32 ++ edPubFromSeed (List.range 32)) [1]).PublicMainKey =
      edPubFromSeed (List.range 32) :=
  C6_publicMainKey_deterministic (List.range 32) [1] [2] _ _ (New_ok (by decide))
    (New_ok (by decide))

/-- C8: `PublicPollKey` fails (with the wrapped invalid-private-key error,
the spec's `MalformedPrivateKey`) exactly when the private key is not a
valid X25519 scalar, i.e. not exactly 32 bytes; on success it returns the
X25519 public point of the scalar and the main-key signature over that
point. -/
theorem C8_publicPollKey_validity (c : Crypto) (pk : List Nat) :
    (pk.length = 32 →
      c.PublicPollKey pk = .ok (scalarBaseMult pk, c.Sign (scalarBaseMult pk))) ∧
    (pk.length ≠ 32 →
      c.PublicPollKey pk = .error (.parsingPrivatePollKey .invalidPrivateKeySize)) :=
  ⟨fun h => publicPollKey_ok c h, fun h => publicPollKey_err c h⟩

/-- C8 witness: a 32-byte key succeeds with point and signature, a 2-byte
key fails with the wrapped parse error. -/
theorem C8_publicPollKey_validity_witness :
    (Crypto.mk (List.range 64) []).PublicPollKey (List.range 32) =
      .ok (scalarBaseMult (List.range 32),
        (Crypto.mk (List.range 64) []).Sign (scalarBaseMult (List.range 32))) ∧
    (Crypto.mk (List.range 64) []).PublicPollKey [1, 2] =
      .error (.parsingPrivatePollKey .invalidPrivateKeySize) :=
  ⟨(C8_publicPollKey_validity (Crypto.mk (List.range 64) []) (List.range 32)).1 (by decide),
    (C8_publicPollKey_validity (Crypto.mk (List.range 64) []) [1, 2]).2 (by decide)⟩

/-- C10: every 32-byte private key is accepted by `curve.NewPrivateKey`
(X25519 accepts all 32-byte strings), so `PublicPollKey` never fails on a
32-byte input; in particular every key produced by `CreatePollKey` is
accepted. -/
theorem C10_publicPollKey_total_on_32 (c c2 : Crypto) (pk : List Nat) :
    (pk.length = 32 → newPrivateKey pk = .ok pk ∧
      ∃ pub sig, c.PublicPollKey pk = .ok (pub, sig)) ∧
    (∀ k, c2.CreatePollKey = .ok k → ∃ pub sig, c2.PublicPollKey k = .ok (pub, sig)) := by
  constructor
  · intro h
    exact ⟨by unfold newPrivateKey; rw [if_pos h],
      scalarBaseMult pk, edSign c.mainKey (scalarBaseMult pk), publicPollKey_ok c h⟩
  · intro k hk
    have hklen : k.length = 32 := by
      unfold Crypto.CreatePollKey readFull at hk
      by_cases h32 : 32 ≤ c2.random.length
      · rw [if_pos h32] at hk
        have hkeq : c2.random.take 32 = k := Except.ok.inj hk
        rw [← hkeq, List.length_take]
        omega
      · rw [if_neg h32] at hk
        by_cases h0 : c2.random.length = 0
        · rw [if_pos h0] at hk
          exact absurd hk (by simp)
        · rw [if_neg h0] at hk
          exact absurd hk (by simp)
    exact ⟨scalarBaseMult k, edSign c2.mainKey (scalarBaseMult k), publicPollKey_ok c2 hklen⟩

/-- C10 witness: a 32-byte key and a key freshly created from a 40-byte
random source are both accepted. -/
theorem C10_publicPollKey_total_on_32_witness :
    (newPrivateKey (List.replicate 32 3) = .ok (List.replicate 32 3) ∧
      ∃ pub sig, (Crypto.mk (List.range 64) []).PublicPollKey (List.replicate 32 3) =
        .ok (pub, sig)) ∧
    ∃ pub sig, (Crypto.mk (List.range 64) (List.range 40)).PublicPollKey
      ((List.range 40).take 32) = .ok (pub, sig) :=
  ⟨(C10_publicPollKey_total_on_32 (Crypto.mk (List.range 64) [])
      (Crypto.mk (List.range 64) (List.range 40)) (List.replicate 32 3)).1 (by decide),
    (C10_publicPollKey_total_on_32 (Crypto.mk (List.range 64) [])
      (Crypto.mk (List.range 64) (List.range 40)) (List.replicate 32 3)).2
      ((List.range 40).take 32) (by decide)⟩

/-- C2: every (public key, signature) pair a successful `PublicPollKey`
returns, on a `Crypto` built by `New` from a 32-byte seed, verifies under
`PublicMainKey`; and the same signature verifies under no other (well-formed
32-byte) poll public key. -/
theorem C2_signature_integrity (seed rnd pk : List Nat) (c : Crypto)
    (hnew : New seed rnd = .ok c) (hpk : pk.length = 32) (pub sig : List Nat)
    (hps : c.PublicPollKey pk = .ok (pub, sig)) :
    Verify c.PublicMainKey pub sig = true ∧
    ∀ other : List Nat, other.length = 32 → (∀ b ∈ other, b < 256) → other ≠ pub →
      Verify c.PublicMainKey other sig = false := by
  obtain ⟨hs, hc⟩ := New_ok_inv hnew
  subst hc
  rw [publicPollKey_ok _ hpk] at hps
  obtain ⟨hpub, hsig⟩ := Prod.mk.inj (Except.ok.inj hps)
  have hpm : (Crypto.mk (seed ++ edPubFromSeed seed) rnd).PublicMainKey = edPubFromSeed seed :=
    publicMainKey_mk rnd hs
  have hsig2 : sig = edSigTag (edPubFromSeed seed) (scalarBaseMult pk) := by
    rw [← hsig]
    exact edSign_mk hs _
  constructor
  · rw [hpm]
    unfold Verify edVerify
    rw [decide_eq_true_eq]
    exact ⟨length_edPubFromSeed seed, by rw [hsig2, ← hpub]⟩
  · intro other hol hob hne
    rw [hpm]
    unfold Verify edVerify
    rw [decide_eq_false_iff_not]
    rintro ⟨-, htag⟩
    rw [hsig2] at htag
    have hmp : bytesToNatLE (edPubFromSeed seed) < 2 ^ 256 :=
      bytesToNatLE_lt_of_len32 (length_edPubFromSeed seed) mem_edPubFromSeed_lt
    have heq : other = scalarBaseMult pk :=
      edSigTag_inj hmp hol hob (length_scalarBaseMult pk) mem_scalarBaseMult_lt htag.symm
    exact hne (by rw [heq, hpub])

/-- C2 witness: the signature of a fresh poll public key verifies under the
main public key and fails under a different 32-byte key. -/
theorem C2_signature_integrity_witness :
    Verify (Crypto.mk (List.range 32 ++ edPubFromSeed (List.range 32)) []).PublicMainKey
      (scalarBaseMult (List.replicate 32 5))
      (edSign (List.range 32 ++ edPubFromSeed (List.range 32))
        (scalarBaseMult (List.replicate 32 5))) = true ∧
    Verify (Crypto.mk (List.range 32 ++ edPubFromSeed (List.range 32)) []).PublicMainKey
      (List.replicate 32 9)
      (edSign (List.range 32 ++ edPubFromSeed (List.range 32))
        (scalarBaseMult (List.replicate 32 5))) = false := by
  have h := C2_signature_integrity (List.range 32) [] (List.replicate 32 5)
    (Crypto.mk (List.range 32 ++ edPubFromSeed (List.range 32)) []) (New_ok (by decide))
    (by decide) (scalarBaseMult (List.replicate 32 5))
    (edSign (List.range 32 ++ edPubFromSeed (List.range 32))
      (scalarBaseMult (List.replicate 32 5))) (by decide)
  exact ⟨h.1, h.2 (List.replicate 32 9) (by decide) (by decide) (by decide)⟩

/-- C7: on a well-formed `Decrypt` call the symmetric key is the HKDF-SHA256
expansion of the Diffie-Hellman shared secret alone (nil salt, nil info),
and the AEAD payload — the ciphertext bytes from offset 44 on — is opened
with the nonce embedded at bytes 32..43 and no associated data. -/
theorem C7_decrypt_key_derivation (c : Crypto) (priv ct : List Nat)
    (h60 : 60 ≤ ct.length) (hpriv : priv.length = 32)
    (hnz : x25519 priv (ct.take 32) ≠ List.replicate 32 0) :
    c.Decrypt priv ct =
      match gcmOpen (hkdfSha256 (x25519 priv (ct.take 32)) [] [] 32)
          ((ct.drop 32).take 12) (ct.drop 44) [] with
      | .error e => .error (.decryptingCiphertext e)
      | .ok plaintext => .ok plaintext :=
  decrypt_unfolded c priv ct h60 hpriv hnz

/-- C7 witness: a concrete 60-byte ciphertext and 32-byte key. -/
theorem C7_decrypt_key_derivation_witness :
    (Crypto.mk [] []).Decrypt (List.range 32) (List.range 60) =
      match gcmOpen (hkdfSha256 (x25519 (List.range 32) ((List.range 60).take 32)) [] [] 32)
          (((List.range 60).drop 32).take 12) ((List.range 60).drop 44) [] with
      | .error e => .error (.decryptingCiphertext e)
      | .ok plaintext => .ok plaintext :=
  C7_decrypt_key_derivation (Crypto.mk [] []) (List.range 32) (List.range 60) (by decide)
    (by decide) (by decide)

/-- C9: a successful `Encrypt` returns exactly 60 + len(plaintext) bytes:
a 32-byte ephemeral public key, a 12-byte nonce, then the sealed payload of
the plaintext length plus a 16-byte tag. -/
theorem C9_encrypt_ciphertext_layout (random pub pt ct : List Nat)
    (h : Encrypt random pub pt = .ok ct) :
    ct.length = 60 + pt.length ∧
    ∃ eph nonce sealed : List Nat, ct = eph ++ nonce ++ sealed ∧ eph.length = 32 ∧
      nonce.length = 12 ∧ sealed.length = pt.length + 16 := by
  unfold Encrypt at h
  by_cases h32 : 32 ≤ random.length
  · have hr : readFull random 32 = .ok (random.take 32) := by
      unfold readFull
      rw [if_pos h32]
    simp only [hr] at h
    cases hpub : newPublicKey pub with
    | error e => simp [hpub] at h
    | ok rp =>
      simp only [hpub] at h
      cases hsh : ecdhShared (random.take 32) rp with
      | error e => simp [hsh] at h
      | ok sh =>
        simp only [hsh] at h
        have h4 : hkdfRead sh [] [] 32 = .ok (hkdfSha256 sh [] [] 32) := rfl
        have h5 : aesNewCipher (hkdfSha256 sh [] [] 32) = .ok (hkdfSha256 sh [] [] 32) := by
          unfold aesNewCipher
          rw [if_pos (Or.inr (Or.inr (length_hkdfSha256 _ _ _ _)))]
        simp only [h4, h5, newGCM, nonceSize] at h
        by_cases hre : (random.drop 32).length = 0
        · rw [if_pos hre] at h
          exact absurd h (by simp)
        · rw [if_neg hre] at h
          have hct : ct = scalarBaseMult (random.take 32) ++
              ((random.drop 32).take 12 ++ List.replicate (12 - (random.drop 32).length) 0) ++
              gcmSeal (hkdfSha256 sh [] [] 32)
                ((random.drop 32).take 12 ++ List.replicate (12 - (random.drop 32).length) 0)
                pt [] := (Except.ok.inj h).symm
          have hNlen : ((random.drop 32).take 12 ++
              List.replicate (12 - (random.drop 32).length) 0).length = 12 := by
            rw [List.length_append, List.length_take, List.length_replicate]
            omega
          subst hct
          refine ⟨?_, scalarBaseMult (random.take 32),
            (random.drop 32).take 12 ++ List.replicate (12 - (random.drop 32).length) 0,
            gcmSeal (hkdfSha256 sh [] [] 32)
              ((random.drop 32).take 12 ++ List.replicate (12 - (random.drop 32).length) 0)
              pt [], rfl, length_scalarBaseMult _, hNlen, length_gcmSeal _ _ _ _⟩
          rw [List.length_append, List.length_append, length_scalarBaseMult, hNlen,
            length_gcmSeal]
          omega
  · have hr : readFull random 32 =
        (if random.length = 0 then .error CErr.eof else .error CErr.unexpectedEOF) := by
      unfold readFull
      rw [if_neg h32]
    simp only [hr] at h
    by_cases h0 : random.length = 0 <;> simp [h0] at h

/-- C9 witness: the 61-byte ciphertext of a 1-byte plaintext. -/
theorem C9_encrypt_ciphertext_layout_witness :
    ([130, 127, 144, 250, 156, 145, 241, 74, 19, 88, 20, 164, 95, 229, 0, 227, 185, 160,
        39, 103, 75, 212, 175, 190, 236, 118, 251, 1, 137, 251, 19, 60, 32, 33, 34, 35, 36,
        37, 38, 39, 40, 41, 42, 43, 140, 159, 204, 49, 173, 40, 164, 31, 155, 22, 146, 13,
        137, 168, 248, 78, 165] : List Nat).length = 60 + ([7] : List Nat).length ∧
    ∃ eph nonce sealed : List Nat,
      ([130, 127, 144, 250, 156, 145, 241, 74, 19, 88, 20, 164, 95, 229, 0, 227, 185, 160,
        39, 103, 75, 212, 175, 190, 236, 118, 251, 1, 137, 251, 19, 60, 32, 33, 34, 35, 36,
        37, 38, 39, 40, 41, 42, 43, 140, 159, 204, 49, 173, 40, 164, 31, 155, 22, 146, 13,
        137, 168, 248, 78, 165] : List Nat) = eph ++ nonce ++ sealed ∧ eph.length = 32 ∧
      nonce.length = 12 ∧ sealed.length = ([7] : List Nat).length + 16 :=
  C9_encrypt_ciphertext_layout (List.range 44) (List.range 32) [7] _ (by decide)

/-- C1: decrypting an `Encrypt` output with the matching poll private key
returns the original plaintext, for every plaintext, every 32-byte private
scalar with its derived public point, and every random source holding the
44 bytes `Encrypt` requests. -/
theorem C1_decrypt_encrypt_roundtrip (c : Crypto) (priv random pt : List Nat)
    (hpriv : priv.length = 32) (hrand : 44 ≤ random.length) :
    ∃ ct, Encrypt random (scalarBaseMult priv) pt = .ok ct ∧ c.Decrypt priv ct = .ok pt := by
  have hdlen : (random.drop 32).length = random.length - 32 := List.length_drop 32 random
  have hre : ¬(random.drop 32).length = 0 := by omega
  refine ⟨scalarBaseMult (random.take 32) ++
      ((random.drop 32).take 12 ++ List.replicate (12 - (random.drop 32).length) 0) ++
      gcmSeal (hkdfSha256 (x25519 (random.take 32) (scalarBaseMult priv)) [] [] 32)
        ((random.drop 32).take 12 ++ List.replicate (12 - (random.drop 32).length) 0) pt [],
    ?_, ?_⟩
  · have hr : readFull random 32 = .ok (random.take 32) := by
      unfold readFull
      rw [if_pos (by omega)]
    have hpub : newPublicKey (scalarBaseMult priv) = .ok (scalarBaseMult priv) := by
      unfold newPublicKey
      rw [if_pos (length_scalarBaseMult priv)]
    have hsh : ecdhShared (random.take 32) (scalarBaseMult priv) =
        .ok (x25519 (random.take 32) (scalarBaseMult priv)) := ecdhShared_scalarBaseMult _ _
    have h4 : hkdfRead (x25519 (random.take 32) (scalarBaseMult priv)) [] [] 32 =
        .ok (hkdfSha256 (x25519 (random.take 32) (scalarBaseMult priv)) [] [] 32) := rfl
    have h5 : aesNewCipher (hkdfSha256 (x25519 (random.take 32) (scalarBaseMult priv)) [] [] 32)
        = .ok (hkdfSha256 (x25519 (random.take 32) (scalarBaseMult priv)) [] [] 32) := by
      unfold aesNewCipher
      rw [if_pos (Or.inr (Or.inr (length_hkdfSha256 _ _ _ _)))]
    unfold Encrypt
    simp only [hr, hpub, hsh, h4, h5, newGCM, nonceSize]
    rw [if_neg hre]
  · apply decrypt_of_parts c priv _ _ _ pt hpriv (length_scalarBaseMult _)
    · rw [List.length_append, List.length_take, List.length_replicate]
      omega
    · exact x25519_scalarBaseMult_ne_zero priv (random.take 32)
    · rw [x25519_comm priv (random.take 32)]
      exact gcmOpen_gcmSeal _ _ _ _

/-- C1 witness: a 32-byte private key, a 44-byte random source and a 2-byte
plaintext round-trip. -/
theorem C1_decrypt_encrypt_roundtrip_witness :
    ∃ ct, Encrypt (List.range 44) (scalarBaseMult (List.range 32)) [104, 105] = .ok ct ∧
      (Crypto.mk [] []).Decrypt (List.range 32) ct = .ok [104, 105] :=
  C1_decrypt_encrypt_roundtrip (Crypto.mk [] []) (List.range 32) (List.range 44) [104, 105]
    (by decide) (by decide)

end VoteDecrypt
